import Mathlib

/-!
The program btwrite: key-space enumeration, workload generation and the worker pool.

A shallow embedding of `btwrite.go`.  Addresses are byte lists (`net.IP` is
`[]byte`), every byte operation is written with an explicit `% 256`, loops
that Go does not bound are given a fuel argument, and a call that Go can
abandon (a panic, `log.Fatal`) is a constructor of the result type.  The
calls into the Go library (`net.ParseCIDR`, `net.IP.Mask`,
`net.IPNet.Contains`, `net.IP.String`, `make`) are embedded from the library
source for a 64-bit platform, for IPv4 and for IPv6 text.
-/

namespace Btwrite

/-! ## Addresses (`net.IP`, `net.IPMask`, `net.IPNet`) -/

/-- The struct `net.IPNet`: network number and mask. -/
structure IPNet where
  ip : List Nat
  mask : List Nat
deriving DecidableEq, Repr

/-- The inner step of `inc`, on the address read from its last byte backwards:
`ip[j]++` on a `byte` wraps modulo 256, and the loop stops at the first byte
that is non-zero after the increment. -/
def incRev : List Nat → List Nat
  | [] => []
  | b :: rest =>
    if (b + 1) % 256 > 0 then (b + 1) % 256 :: rest
    else (b + 1) % 256 :: incRev rest

/-- The function `inc` (btwrite.go:36): `for j := len(ip)-1; j >= 0; j--`. -/
def inc (ip : List Nat) : List Nat :=
  (incRev ip.reverse).reverse

/-- One byte of `net.CIDRMask`: `0xff` while `n >= 8`, otherwise
`^byte(0xff >> n)`, which is `255 - (255 >>> n)` on a byte. -/
def cidrMaskLoop : Nat → Nat → List Nat
  | 0, _ => []
  | l + 1, n =>
    if n ≥ 8 then 255 :: cidrMaskLoop l (n - 8)
    else (255 - (255 >>> n)) :: cidrMaskLoop l 0

/-- The library function `net.CIDRMask(ones, bits)` for valid arguments
(`bits` is 32 or 128 and `ones ≤ bits`); it returns nil otherwise. -/
def cidrMask (ones bits : Nat) : List Nat :=
  if (bits = 32 ∨ bits = 128) ∧ ones ≤ bits then cidrMaskLoop (bits / 8) ones else []

/-- The byte loop of `net.IP.Mask`: `out[i] = ip[i] & mask[i]`. -/
def maskLoop : List Nat → List Nat → List Nat
  | a :: ip, m :: mask => (a &&& m) :: maskLoop ip mask
  | _, _ => []

/-- The library variable `v4InV6Prefix`: the first twelve bytes of an
IPv4-mapped 16-byte address. -/
def v4InV6Prefix : List Nat :=
  [0, 0, 0, 0, 0, 0, 0, 0, 0, 0, 255, 255]

/-- The library method `net.IP.To4`: a 4-byte address as it is, the last four
bytes of an IPv4-mapped 16-byte address, and nil (none) otherwise. -/
def to4 (ip : List Nat) : Option (List Nat) :=
  if ip.length = 4 then some ip
  else if ip.length = 16 ∧ ip.take 12 = v4InV6Prefix then some (ip.drop 12)
  else none

/-- The library method `net.IP.Mask`.  A 16-byte mask whose first twelve
bytes are `0xff` is cut to its last four bytes for a 4-byte address, an
IPv4-mapped 16-byte address is cut to its last four bytes for a 4-byte mask;
lengths that still differ give nil, otherwise `out[i] = ip[i] & mask[i]`.
(On IPv4 text `ParseCIDR` hands the address out in the 16-byte IPv4-mapped
form with a 4-byte mask, so `Mask` works on the last four bytes: the 4-byte
form is the one `parseCIDR` keeps for such text.) -/
def maskIP (ip mask : List Nat) : List Nat :=
  let mask1 :=
    if mask.length = 16 ∧ ip.length = 4 ∧ mask.take 12 = List.replicate 12 255 then mask.drop 12
    else mask
  let ip1 :=
    if mask1.length = 4 ∧ ip.length = 16 ∧ ip.take 12 = v4InV6Prefix then ip.drop 12 else ip
  if ip1.length = mask1.length then maskLoop ip1 mask1 else []

/-- The byte loop of `net.IPNet.Contains`:
`if nn[i]&m[i] != ip[i]&m[i] { return false }`. -/
def containsLoop : List Nat → List Nat → List Nat → Bool
  | n :: nn, m :: mask, a :: ip =>
    if n &&& m ≠ a &&& m then false else containsLoop nn mask ip
  | _, _, _ => true

/-- The library function `networkNumberAndMask`: the network number in its
4-byte form when it has one, with the mask cut to fit; none for the pair
`nil, nil`. -/
def networkNumberAndMask (n : IPNet) : Option (List Nat × List Nat) :=
  match (match to4 n.ip with
    | some ip => some ip
    | none => if n.ip.length ≠ 16 then none else some n.ip) with
  | none => none
  | some ip =>
    if n.mask.length = 4 then
      if ip.length ≠ 4 then none else some (ip, n.mask)
    else if n.mask.length = 16 then
      if ip.length = 4 then some (ip, n.mask.drop 12) else some (ip, n.mask)
    else none

/-- The library method `net.IPNet.Contains`: the address is taken in its
4-byte form when it has one, and the answer is false when its length is not
that of the network number. -/
def contains (n : IPNet) (ip : List Nat) : Bool :=
  let ip1 := match to4 ip with
    | some x => x
    | none => ip
  match networkNumberAndMask n with
  | none => if ip1.length ≠ 0 then false else true
  | some (nn, m) => if ip1.length ≠ nn.length then false else containsLoop nn m ip1

/-! ## Text: `net.IP.String` -/

/-- The helper `ubtoa` of the Go library: a byte in decimal, no padding. -/
def ubtoa (v : Nat) : List Char :=
  if v < 10 then [Char.ofNat (v + 48)]
  else if v < 100 then [Char.ofNat (v / 10 + 48), Char.ofNat (v % 10 + 48)]
  else [Char.ofNat (v / 100 + 48), Char.ofNat (v / 10 % 10 + 48), Char.ofNat (v % 10 + 48)]

/-- The table `digits` of the library: one hexadecimal digit, lower case. -/
def hexDigit (d : Nat) : Char :=
  if d < 10 then Char.ofNat (d + 48) else Char.ofNat (d - 10 + 97)

/-- The library function `appendHex`: a 16-bit group in hexadecimal without
leading zeros. -/
def appendHex (x : Nat) : List Char :=
  (if x ≥ 4096 then [hexDigit (x / 4096)] else []) ++
  (if x ≥ 256 then [hexDigit (x / 256 % 16)] else []) ++
  (if x ≥ 16 then [hexDigit (x / 16 % 16)] else []) ++
  [hexDigit (x % 16)]

/-- The library function `hexString`: two hexadecimal digits for every byte. -/
def hexString : List Nat → List Char
  | [] => []
  | b :: rest => hexDigit (b / 16) :: hexDigit (b % 16) :: hexString rest

/-- The eight 16-bit groups of a 16-byte address (`v6u16`). -/
def groups : List Nat → List Nat
  | hi :: lo :: rest => (hi * 256 + lo) :: groups rest
  | _ => []

/-- The inner loop `for j < 8 && ip.v6u16(j) == 0 { j++ }` of `appendTo6`:
the end of the run of zero groups that starts at `j`. -/
def zeroRunEnd (g : List Nat) : Nat → Nat → Nat
  | 0, j => j
  | fuel + 1, j => if j < 8 ∧ g.getD j 0 = 0 then zeroRunEnd g fuel (j + 1) else j

/-- The first loop of `appendTo6`, from group `i` on: the longest run of at
least two zero groups, the first one among equals, as `(zeroStart, zeroEnd)`.
Both are 255 when there is none, so that `zeroEnd - zeroStart` starts at 0. -/
def zeroRun (g : List Nat) : Nat → Nat → Nat × Nat → Nat × Nat
  | 0, _, best => best
  | fuel + 1, i, best =>
    if i < 8 then
      let j := zeroRunEnd g 8 i
      if j - i ≥ 2 ∧ j - i > best.2 - best.1 then zeroRun g fuel (i + 1) (i, j)
      else zeroRun g fuel (i + 1) best
    else best

/-- The second loop of `appendTo6`, from group `i` on: `::` in place of the
chosen run, a colon between groups, each group through `appendHex`. -/
def v6Text (g : List Nat) (zeroStart zeroEnd : Nat) : Nat → Nat → List Char
  | 0, _ => []
  | fuel + 1, i =>
    if i < 8 then
      if i = zeroStart then
        if zeroEnd ≥ 8 then [':', ':']
        else ':' :: ':' :: (appendHex (g.getD zeroEnd 0) ++ v6Text g zeroStart zeroEnd fuel (zeroEnd + 1))
      else
        (if i > 0 then [':'] else []) ++ appendHex (g.getD i 0)
          ++ v6Text g zeroStart zeroEnd fuel (i + 1)
    else []

/-- The library function `appendTo6`: the text of a 16-byte address that is
not IPv4-mapped. -/
def string6 (ip : List Nat) : List Char :=
  let run := zeroRun (groups ip) 8 0 (255, 255)
  v6Text (groups ip) run.1 run.2 8 0

/-- The characters of `net.IP.String`: `<nil>` for the empty address, `?` and
the bytes in hexadecimal for a length other than 4 and 16, dotted decimal
for an address with a 4-byte form, the IPv6 text otherwise. -/
def ipChars : List Nat → List Char
  | [] => "<nil>".data
  | [a, b, c, d] => ubtoa a ++ '.' :: (ubtoa b ++ '.' :: (ubtoa c ++ '.' :: ubtoa d))
  | ip =>
    if ip.length ≠ 16 then '?' :: hexString ip
    else match to4 ip with
      | some [a, b, c, d] => ubtoa a ++ '.' :: (ubtoa b ++ '.' :: (ubtoa c ++ '.' :: ubtoa d))
      | _ => string6 ip

/-- The library method `net.IP.String`. -/
def ipString (ip : List Nat) : String :=
  String.mk (ipChars ip)

/-! ## Text: `net.ParseCIDR` -/

/-- Is the character an ASCII digit: `'0' <= c && c <= '9'`. -/
def isDigit (c : Char) : Bool :=
  48 ≤ c.toNat && c.toNat ≤ 57

/-- The library function `parseIPv4Fields`: the scan keeps the character
before the current one (`none` at index 0), the value and digit count of the
octet being read and the octets completed so far (`pos` is their number). -/
def parseIPv4Fields : List Char → Option Char → Nat → Nat → List Nat → Option (List Nat)
  | [], _, val, _, fields =>
    if fields.length < 3 then none else some (fields ++ [val])
  | c :: rest, prev, val, digLen, fields =>
    if isDigit c then
      if digLen = 1 ∧ val = 0 then none
      else if val * 10 + (c.toNat - 48) > 255 then none
      else parseIPv4Fields rest (some c) (val * 10 + (c.toNat - 48)) (digLen + 1) fields
    else if c = '.' then
      if prev = none ∨ rest = [] ∨ prev = some '.' then none
      else if fields.length = 3 then none
      else parseIPv4Fields rest (some c) 0 0 (fields ++ [val])
    else none

/-- The value of a hexadecimal digit, none for any other character. -/
def hexVal (c : Char) : Option Nat :=
  if 48 ≤ c.toNat ∧ c.toNat ≤ 57 then some (c.toNat - 48)
  else if 97 ≤ c.toNat ∧ c.toNat ≤ 102 then some (c.toNat - 97 + 10)
  else if 65 ≤ c.toNat ∧ c.toNat ≤ 70 then some (c.toNat - 65 + 10)
  else none

/-- The hexadecimal scan of `parseIPv6`, at index `off` of the group with the
value `acc` so far: it stops at the first character that is no hexadecimal
digit and gives the number of digits, the value and the text from that
character on; a fifth digit (`off > 3`) or a value above `0xffff` is an
error (none). -/
def scanHex : List Char → Nat → Nat → Option (Nat × Nat × List Char)
  | [], off, acc => some (off, acc, [])
  | c :: rest, off, acc =>
    match hexVal c with
    | none => some (off, acc, c :: rest)
    | some d =>
      if off > 3 then none
      else if acc * 16 + d > 65535 then none
      else scanHex rest (off + 1) (acc * 16 + d)

/-- The loop `for i < 16` of `parseIPv6` on the text `s`, with the bytes
written so far (`i` is their number) and the position of the ellipsis.  It
gives the text left over, the bytes and the ellipsis when the loop is left,
none for an error.  Every turn writes at least two bytes, so eight turns and
the last test of `i < 16` are within the nine units of fuel. -/
def v6Loop : Nat → List Char → List Nat → Option Nat →
    Option (List Char × List Nat × Option Nat)
  | 0, s, ip, ellipsis => some (s, ip, ellipsis)
  | fuel + 1, s, ip, ellipsis =>
    if ip.length ≥ 16 then some (s, ip, ellipsis)
    else match scanHex s 0 0 with
      | none => none
      | some (off, acc, rest) =>
        if off = 0 then none
        else if rest.head? = some '.' then
          if ellipsis = none ∧ ip.length ≠ 12 then none
          else if ip.length + 4 > 16 then none
          else match parseIPv4Fields s none 0 0 [] with
            | none => none
            | some fields => some ([], ip ++ fields, ellipsis)
        else
          match rest with
          | [] => some ([], ip ++ [acc / 256, acc % 256], ellipsis)
          | c :: rest1 =>
            if c ≠ ':' then none
            else match rest1 with
              | [] => none
              | c2 :: rest2 =>
                if c2 = ':' then
                  if ellipsis ≠ none then none
                  else match rest2 with
                    | [] => some ([], ip ++ [acc / 256, acc % 256], some (ip.length + 2))
                    | _ :: _ =>
                      v6Loop fuel rest2 (ip ++ [acc / 256, acc % 256]) (some (ip.length + 2))
                else v6Loop fuel rest1 (ip ++ [acc / 256, acc % 256]) ellipsis

/-- The library function `parseIPv6` on text without a zone: an optional
leading `::`, the loop, no text left over, and the ellipsis expanded to the
zero bytes that fill the address up to 16. -/
def parseIPv6 (s : List Char) : Option (List Nat) :=
  match (match s with
    | ':' :: ':' :: rest => (rest, some 0)
    | _ => (s, none)) with
  | (s1, ellipsis) =>
    if ellipsis ≠ none ∧ s1 = [] then some (List.replicate 16 0)
    else match v6Loop 9 s1 [] ellipsis with
      | none => none
      | some (rest, ip, ell) =>
        if rest ≠ [] then none
        else if ip.length < 16 then
          match ell with
          | none => none
          | some e => some (ip.take e ++ List.replicate (16 - ip.length) 0 ++ ip.drop e)
        else if ell ≠ none then none
        else some ip

/-- The library function `dtoi` as `ParseCIDR` uses it: the whole text must be
decimal digits (`i == len(mask)`), at least one, and the number stays below
`big = 0xFFFFFF`. -/
def dtoiLoop : List Char → Nat → Option Nat
  | [], n => some n
  | c :: rest, n =>
    if isDigit c then
      if n * 10 + (c.toNat - 48) ≥ 0xFFFFFF then none
      else dtoiLoop rest (n * 10 + (c.toNat - 48))
    else none

/-- The prefix length after the slash, see `dtoiLoop`. -/
def dtoi (s : List Char) : Option Nat :=
  if s = [] then none else dtoiLoop s 0

/-- The dispatch of `netip.ParseAddr`: the first of `.`, `:` and `%` in the
text decides which parser runs. -/
inductive AddrKind where
  | v4
  | v6
  | bad
deriving DecidableEq, Repr

/-- The scan of `netip.ParseAddr` for the first `.`, `:` or `%`. -/
def addrKind : List Char → AddrKind
  | [] => AddrKind.bad
  | c :: rest =>
    if c = '.' then AddrKind.v4
    else if c = ':' then AddrKind.v6
    else if c = '%' then AddrKind.bad
    else addrKind rest

/-- Split at the first slash: `s[:i]` and `s[i+1:]`, or none without a slash. -/
def splitSlash : List Char → Option (List Char × List Char)
  | [] => none
  | c :: rest =>
    if c = '/' then some ([], rest)
    else match splitSlash rest with
      | none => none
      | some (a, m) => some (c :: a, m)

/-- What `net.ParseCIDR` returns. -/
inductive ParseResult where
  /-- the ParseError -/
  | err
  /-- the address of IPv4 text with its network -/
  | ok4 (addr : List Nat) (net : IPNet)
  /-- the 16-byte address of IPv6 text with its network -/
  | ok6 (addr : List Nat) (net : IPNet)
deriving DecidableEq, Repr

/-- The library function `net.ParseCIDR`: the address in front of the slash,
the prefix length `n` behind it, at most the bit length of the address, and
the network `IPNet{IP: addr.Mask(m), Mask: m}` with `m = CIDRMask(n, bits)`.
IPv4 text gives 32 bits, IPv6 text 128 bits.  An address with a zone is an
error: a zone that is empty is one in `parseIPv6` and any other zone is one
in `ParseCIDR`, so IPv6 text with a `%` is an error whatever the rest. -/
def parseCIDR (s : String) : ParseResult :=
  match splitSlash s.data with
  | none => ParseResult.err
  | some (a, m) =>
    match addrKind a with
    | AddrKind.bad => ParseResult.err
    | AddrKind.v6 =>
      if '%' ∈ a then ParseResult.err
      else match parseIPv6 a with
        | none => ParseResult.err
        | some addr =>
          match dtoi m with
          | none => ParseResult.err
          | some n =>
            if n > 128 then ParseResult.err
            else ParseResult.ok6 addr ⟨maskIP addr (cidrMask n 128), cidrMask n 128⟩
    | AddrKind.v4 =>
      match parseIPv4Fields a none 0 0 [] with
      | none => ParseResult.err
      | some addr =>
        match dtoi m with
        | none => ParseResult.err
        | some n =>
          if n > 32 then ParseResult.err
          else ParseResult.ok4 addr ⟨maskIP addr (cidrMask n 32), cidrMask n 32⟩

/-! ## `cidrIPs` -/

/-- The loop of `cidrIPs` (btwrite.go:52):
`for ip := …; ipv4Net.Contains(ip); inc(ip) { ips = append(ips, ip.String()) }`.
Every test of the loop condition uses one unit of fuel; `none` is a loop
still running when the fuel is gone. -/
def enumLoop (n : IPNet) : Nat → List Nat → List String → Option (List String)
  | 0, _, _ => none
  | fuel + 1, ip, ips =>
    if contains n ip then enumLoop n fuel (inc ip) (ips ++ [ipString ip])
    else some ips

/-- What a call of `cidrIPs` does. -/
inductive CidrResult where
  /-- the return of the ParseError: `return []string{}, err` -/
  | error
  /-- the return of the usable addresses: `return usableIps, nil` -/
  | ok (ips : List String)
  /-- the slice expression `ips[1 : len(ips)-1]` is out of range -/
  | panic
  /-- the loop has not ended within the fuel -/
  | running
deriving DecidableEq, Repr

/-- The slice expression `ips[1 : len(ips)-1]`: Go panics unless
`1 ≤ len(ips)-1`. -/
def usable (ips : List String) : Option (List String) :=
  if ips.length < 2 then none else some ((ips.drop 1).take (ips.length - 2))

/-- The body of `cidrIPs` after a successful `ParseCIDR` (btwrite.go:51-56). -/
def cidrLoop (fuel : Nat) (addr : List Nat) (net : IPNet) : CidrResult :=
  match enumLoop net fuel (maskIP addr net.mask) [] with
  | none => CidrResult.running
  | some ips =>
    match usable ips with
    | none => CidrResult.panic
    | some u => CidrResult.ok u

/-- The function `cidrIPs` (btwrite.go:45). -/
def cidrIPs (fuel : Nat) (cidr : String) : CidrResult :=
  match parseCIDR cidr with
  | ParseResult.err => CidrResult.error
  | ParseResult.ok4 addr net => cidrLoop fuel addr net
  | ParseResult.ok6 addr net => cidrLoop fuel addr net

/-! ## Addresses as numbers -/

/-- The address read as a big-endian number. -/
def ipVal (ip : List Nat) : Nat :=
  ip.foldl (fun acc b => acc * 256 + b) 0

/-- The four bytes of a number, most significant first (the number is taken
modulo `2^32`). -/
def ofVal (v : Nat) : List Nat :=
  [v / 16777216 % 256, v / 65536 % 256, v / 256 % 256, v % 256]

/-- A 4-byte address: four entries, each a byte. -/
def IsIPv4 (ip : List Nat) : Prop :=
  ip.length = 4 ∧ ∀ b ∈ ip, b < 256

/-! ## The workload generator (btwrite.go:168) -/

/-- The struct `Data`. -/
structure Data where
  Timestamp : Int
  Ip : String
deriving DecidableEq, Repr

/-- The library function `rand.Intn(n)` on the raw draw `r`: it panics for
`n ≤ 0` and otherwise returns a number in `[0, n)`; every such number is the
result for some draw. -/
def intn (r n : Nat) : Option Nat :=
  if n = 0 then none else some (r % n)

/-- What the generator loop does. -/
inductive GenResult where
  /-- the loop ran to its end with these jobs in the channel -/
  | done (jobs : List Data)
  /-- a run-time panic (`make`, `rand.Intn(0)` or an index out of range) -/
  | panic
  /-- a send on the full channel, with no receiver running yet -/
  | blocked
deriving DecidableEq, Repr

/-- The loop `for i := 0; i < args.Records; i++` with `k` iterations left:
draw an index, read `ips[index]`, send `Data{now, ip}` on the channel `jobs`
of capacity `cap`.  `rnd i` is the raw draw and `now i` the clock of
iteration `i`. -/
def genLoop (ips : List String) (rnd : Nat → Nat) (now : Nat → Int) (cap : Nat) :
    Nat → Nat → List Data → GenResult
  | 0, _, jobs => GenResult.done jobs
  | k + 1, i, jobs =>
    match intn (rnd i) ips.length with
    | none => GenResult.panic
    | some idx =>
      match ips[idx]? with
      | none => GenResult.panic
      | some ip =>
        if jobs.length < cap then
          genLoop ips rnd now cap k (i + 1) (jobs ++ [⟨now i, ip⟩])
        else GenResult.blocked

/-- The run-time function `makechan` behind `make(chan T, size)` on a 64-bit
platform, for an element of `elemSize` bytes: it panics (`makechan: size out
of range`, none) when the size is negative, when `elemSize * size` overflows
`uintptr` or when it exceeds `chanLimit`, the bound `maxAlloc - hchanSize` of
the run time (below `2^48` on linux/amd64); otherwise the channel has the
capacity `size`. -/
def makechan (chanLimit elemSize : Nat) (size : Int) : Option Nat :=
  if size < 0 ∨ elemSize * size.toNat ≥ 18446744073709551616 ∨ elemSize * size.toNat > chanLimit
  then none
  else some size.toNat

/-- The generator of `main` (btwrite.go:161-162, 168-177): the channels
`make(chan Data, args.Records)`, a `Data` being 24 bytes (an `int` and a
`string`), and `make(chan time.Duration, args.Records)`, a `Duration` being 8
bytes, and the loop, which runs `args.Records` times. -/
def generate (chanLimit : Nat) (records : Int) (ips : List String) (rnd : Nat → Nat)
    (now : Nat → Int) : GenResult :=
  match makechan chanLimit 24 records with
  | none => GenResult.panic
  | some cap =>
    match makechan chanLimit 8 records with
    | none => GenResult.panic
    | some _ => genLoop ips rnd now cap records.toNat 0 []

/-! ## The store: `createTable` and the write of `writeWorker` -/

/-- The function `sliceContains` (btwrite.go:59). -/
def sliceContains : List String → String → Bool
  | [], _ => false
  | s :: list, target => if s = target then true else sliceContains list target

/-- What the admin interface of the store answers during `createTable`. -/
structure AdminEnv where
  /-- does `bigtable.NewAdminClient` return an error -/
  clientErr : Bool
  /-- the reply of `adminClient.Tables`, none for an error -/
  tables : Option (List String)
  /-- does `CreateTable` return an error -/
  createTableErr : Bool
  /-- does `CreateColumnFamily` return an error -/
  createFamilyErr : Bool
  /-- does `SetGCPolicy` return an error -/
  setPolicyErr : Bool
deriving DecidableEq, Repr

/-- A call that changes the store through the admin interface. -/
inductive AdminCall where
  | createTable (table : String)
  | createColumnFamily (table family : String)
  /-- the policy is `MaxAgePolicy(time.Hour * 24)` -/
  | setGCPolicy (table family : String) (maxAgeHours : Nat)
deriving DecidableEq, Repr

/-- The function `createTable` (btwrite.go:68): whether it returns an error,
and the admin calls it has issued. -/
def createTable (env : AdminEnv) (_project _instance table columnFamily : String)
    (_debug : Bool) : Bool × List AdminCall :=
  if env.clientErr then (true, [])
  else match env.tables with
    | none => (true, [])
    | some tables =>
      if !sliceContains tables table then
        if env.createTableErr then (true, [AdminCall.createTable table])
        else if env.createFamilyErr then
          (true, [AdminCall.createTable table, AdminCall.createColumnFamily table columnFamily])
        else if env.setPolicyErr then
          (true, [AdminCall.createTable table, AdminCall.createColumnFamily table columnFamily,
            AdminCall.setGCPolicy table columnFamily 24])
        else
          (false, [AdminCall.createTable table, AdminCall.createColumnFamily table columnFamily,
            AdminCall.setGCPolicy table columnFamily 24])
      else (false, [])

/-- A read-modify-write sent to the store: `tbl.ApplyReadModifyWrite(ctx, row, mut)`
with `mut.Increment(family, column, delta)` on the table `tbl`. -/
structure Mutation where
  table : String
  row : String
  family : String
  column : String
  delta : Int
deriving DecidableEq, Repr

/-- The write of `writeWorker` for the job `j` (btwrite.go:120-128):
`tbl := client.Open(table)`, `mut.Increment("stats", "ips", 1)`, row `j.Ip`.
The argument `family` only appears in the message of `log.Fatalf`. -/
def workerWrite (table _family : String) (j : Data) : Mutation :=
  ⟨table, j.Ip, "stats", "ips", 1⟩

/-! ## Driver and workers as a transition system -/

/-- Where a `writeWorker` goroutine stands. -/
inductive Worker where
  /-- in `bigtable.NewClient` -/
  | connecting
  /-- at the receive of `for j := range jobs` -/
  | waiting
  /-- holding the job, in `rl.Take()` -/
  | limited (j : Data)
  /-- holding the job, in `tbl.ApplyReadModifyWrite` -/
  | writing (j : Data)
  /-- the write returned without error after `d`; at `results <- d` -/
  | sending (j : Data) (d : Int)
deriving DecidableEq, Repr

/-- Where `main` stands after the generator. -/
inductive Driver where
  /-- in `for w := 1; w <= args.Threads; w++` with this `w` -/
  | launching (w : Int)
  /-- in `for a := 0; a < args.Records; a++` with this `a` -/
  | collecting (a : Int)
  /-- past the collecting loop: `main` returns and the process ends -/
  | finished
deriving DecidableEq, Repr

/-- The state of the process. -/
structure Sys where
  /-- the value of `args.Records` -/
  records : Int
  /-- the value of `args.Threads` -/
  threads : Int
  /-- the arguments `table` and `family` given to every worker -/
  table : String
  family : String
  /-- the content of the channel `jobs` -/
  jobs : List Data
  /-- the content of the channel `res` -/
  res : List Int
  workers : List Worker
  driver : Driver
  /-- how many times the driver has completed `<-res` -/
  received : Nat
  /-- the writes issued to the store so far -/
  writes : List Mutation
  /-- has `log.Fatalf` ended the process -/
  aborted : Bool
deriving DecidableEq, Repr

/-- One scheduling decision together with the answer of the outside world. -/
inductive Action where
  /-- the driver runs its next loop test and loop body -/
  | driver
  /-- in worker `i`, `NewClient` returns, without error or with one -/
  | connect (i : Nat) (ok : Bool)
  /-- worker `i` receives the next job from `jobs` -/
  | recv (i : Nat)
  /-- in worker `i`, `rl.Take()` returns -/
  | take (i : Nat)
  /-- in worker `i`, the write returns: the elapsed time, or none for an error -/
  | write (i : Nat) (r : Option Int)
  /-- worker `i` sends its sample on `res` -/
  | send (i : Nat)
deriving DecidableEq, Repr

/-- The step of the driver (btwrite.go:183-192). -/
def driverStep (s : Sys) : Option Sys :=
  match s.driver with
  | Driver.launching w =>
    if w ≤ s.threads then
      some { s with workers := s.workers ++ [Worker.connecting], driver := Driver.launching (w + 1) }
    else some { s with driver := Driver.collecting 0 }
  | Driver.collecting a =>
    if a < s.records then
      match s.res with
      | [] => none
      | _ :: rest =>
        some { s with res := rest, received := s.received + 1, driver := Driver.collecting (a + 1) }
    else some { s with driver := Driver.finished }
  | Driver.finished => none

/-- The function `writeWorker` (btwrite.go:105), one step of the goroutine of
worker `i` (btwrite.go:116-137).  The channel `res` has the
capacity `args.Records`; a send on a full channel and a receive on an empty
one are not enabled. -/
def writeWorker (s : Sys) (i : Nat) (a : Action) : Option Sys :=
  match s.workers[i]?, a with
  | some Worker.connecting, Action.connect _ ok =>
    if ok then some { s with workers := s.workers.set i Worker.waiting }
    else some { s with aborted := true }
  | some Worker.waiting, Action.recv _ =>
    match s.jobs with
    | [] => none
    | j :: rest => some { s with jobs := rest, workers := s.workers.set i (Worker.limited j) }
  | some (Worker.limited j), Action.take _ =>
    some { s with workers := s.workers.set i (Worker.writing j) }
  | some (Worker.writing j), Action.write _ r =>
    match r with
    | none => some { s with writes := s.writes ++ [workerWrite s.table s.family j], aborted := true }
    | some d =>
      some { s with writes := s.writes ++ [workerWrite s.table s.family j],
                    workers := s.workers.set i (Worker.sending j d) }
  | some (Worker.sending _ d), Action.send _ =>
    if s.res.length < s.records.toNat then
      some { s with res := s.res ++ [d], workers := s.workers.set i Worker.waiting }
    else none
  | _, _ => none

/-- One step of the process.  After `log.Fatalf` and after the return of
`main` the process is gone and nothing runs. -/
def step (s : Sys) (a : Action) : Option Sys :=
  if s.aborted = true ∨ s.driver = Driver.finished then none
  else match a with
    | Action.driver => driverStep s
    | Action.connect i _ => writeWorker s i a
    | Action.recv i => writeWorker s i a
    | Action.take i => writeWorker s i a
    | Action.write i _ => writeWorker s i a
    | Action.send i => writeWorker s i a

/-- A run: the steps of a list of actions, none when one is not enabled. -/
def run (s : Sys) : List Action → Option Sys
  | [] => some s
  | a :: rest =>
    match step s a with
    | none => none
    | some t => run t rest

/-- The state in which `main` enters the launching loop. -/
def initSys (records threads : Int) (table family : String) (jobs : List Data) : Sys :=
  { records := records, threads := threads, table := table, family := family, jobs := jobs,
    res := [], workers := [], driver := Driver.launching 1, received := 0, writes := [],
    aborted := false }

/-- Does the worker hold a job it has taken from the queue. -/
def busy : Worker → Nat
  | Worker.connecting => 0
  | Worker.waiting => 0
  | Worker.limited _ => 1
  | Worker.writing _ => 1
  | Worker.sending _ _ => 1

/-- The number of requests in flight in a worker. -/
def inFlight (s : Sys) : Nat :=
  (s.workers.map busy).sum

/-- The number of samples emitted: those in the channel `res` and those the
driver has received. -/
def emitted (s : Sys) : Nat :=
  s.res.length + s.received

/-! ## `main` up to the launching loop -/

/-- The variable `args`. -/
structure Args where
  Project : String
  Instance : String
  Database : String
  Table : String
  RPS : Int
  Records : Int
  Threads : Int
  Verbose : Bool
  Cidr : String
deriving DecidableEq, Repr

/-- The outside world of `main`: the admin interface, whether
`ratelimit.New(rate)` returns (the library is not part of the program), the
random source, the clock, and the bound of the run time on the buffer of a
channel (see `makechan`). -/
structure Env where
  admin : AdminEnv
  newLimiter : Int → Bool
  rnd : Nat → Nat
  now : Nat → Int
  chanLimit : Nat

/-- What `main` has done when it reaches the launching loop, or how it ended
before. -/
inductive MainResult where
  /-- the call `log.Fatal` or `log.Fatalf` -/
  | fatal
  /-- a run-time panic -/
  | panic
  /-- the loop of `cidrIPs` has not ended within the fuel -/
  | running
  /-- a send of the generator blocked -/
  | blocked
  /-- the jobs are in the channel and the launching loop begins -/
  | started (s : Sys)
deriving DecidableEq, Repr

/-- The function `main` (btwrite.go:141-177) up to the launching loop.  The
table argument of `createTable` and of the workers is `args.Database`, the
column family argument is `args.Table`.  The two channels are made before
`cidrIPs` is called: `make(chan Data, args.Records)` with elements of 24
bytes and `make(chan time.Duration, args.Records)` with elements of 8 bytes,
each a panic when `makechan` refuses the size. -/
def mainStart (fuel : Nat) (args : Args) (env : Env) : MainResult :=
  let err := (createTable env.admin args.Project args.Instance args.Database args.Table
    args.Verbose).1
  if !env.newLimiter args.RPS then MainResult.panic
  else if args.Project = "" then MainResult.fatal
  else if err then MainResult.fatal
  else match makechan env.chanLimit 24 args.Records with
    | none => MainResult.panic
    | some cap =>
      match makechan env.chanLimit 8 args.Records with
      | none => MainResult.panic
      | some _ =>
        match cidrIPs fuel args.Cidr with
        | CidrResult.error => MainResult.fatal
        | CidrResult.panic => MainResult.panic
        | CidrResult.running => MainResult.running
        | CidrResult.ok ips =>
          match genLoop ips env.rnd env.now cap args.Records.toNat 0 [] with
          | GenResult.panic => MainResult.panic
          | GenResult.blocked => MainResult.blocked
          | GenResult.done jobs =>
            MainResult.started
              (initSys args.Records args.Threads args.Database args.Table jobs)

/-- Does `main` start the workload: it has put a job into the channel, or the
launching loop launches a worker (`1 <= args.Threads`). -/
def startsWorkload : MainResult → Bool
  | MainResult.started s => !s.jobs.isEmpty || decide (1 ≤ s.threads)
  | _ => false

/-- The admin calls of `createTable` as `main` calls it. -/
def provisioned (args : Args) (env : AdminEnv) : List AdminCall :=
  (createTable env args.Project args.Instance args.Database args.Table args.Verbose).2

/-! ## Concrete configurations -/

/-- A store that answers every admin call without error and has no table. -/
def emptyStore : AdminEnv :=
  ⟨false, some [], false, false, false⟩

/-- An outside world in which every call returns without error; the bound
on a channel buffer is that of linux/amd64, `2^48 - 96`. -/
def quietEnv : Env :=
  ⟨emptyStore, fun _ => true, fun i => i + 1, fun _ => 1700000000, 281474976710560⟩

/-- The flags `--project p --records 1 --threads 0 --cidr 10.0.0.0/30`. -/
def cfgNoWorkers : Args :=
  ⟨"p", "timeseries", "metrics", "stats", 1000, 1, 0, false, "10.0.0.0/30"⟩

/-- The flags `--project p --rps -1 --records 1 --threads 1 --cidr 10.0.0.0/30`. -/
def cfgNegativeRate : Args :=
  ⟨"p", "timeseries", "metrics", "stats", -1, 1, 1, false, "10.0.0.0/30"⟩

/-- The flags `--project p --table foo --records 1 --threads 1 --cidr 10.0.0.0/30`. -/
def cfgFoo : Args :=
  ⟨"p", "timeseries", "metrics", "foo", 1000, 1, 1, false, "10.0.0.0/30"⟩

/-- A process with two jobs left in the queue, one worker waiting and one
worker in its write. -/
def midRun : Sys :=
  { records := 3, threads := 2, table := "metrics", family := "stats",
    jobs := [⟨7, "10.0.0.1"⟩, ⟨7, "10.0.0.2"⟩], res := [],
    workers := [Worker.waiting, Worker.writing ⟨7, "10.0.0.2"⟩],
    driver := Driver.collecting 0, received := 0, writes := [], aborted := false }

/-- The accounting invariant of the process for `N` records: while no
`log.Fatalf` has happened, the record count is `N`, every request is queued,
in flight or has given its sample, and the loop variable of the collecting
loop is the number of samples received. -/
def Inv (N : Nat) (s : Sys) : Prop :=
  s.aborted = false →
    s.records = N ∧ N = s.jobs.length + inFlight s + emitted s ∧
    (match s.driver with
      | Driver.launching _ => s.received = 0
      | Driver.collecting a => a = s.received ∧ s.received ≤ N
      | Driver.finished => s.received = N)

/-! ## Addresses as numbers: basic facts -/

theorem isIPv4_iff (ip : List Nat) :
    IsIPv4 ip ↔ ∃ a b c d, ip = [a, b, c, d] ∧ a < 256 ∧ b < 256 ∧ c < 256 ∧ d < 256 := by
  constructor
  · rintro ⟨hl, hb⟩
    match ip, hl with
    | [a, b, c, d], _ =>
      exact ⟨a, b, c, d, rfl, hb a (by simp), hb b (by simp), hb c (by simp), hb d (by simp)⟩
  · rintro ⟨a, b, c, d, rfl, ha, hb, hc, hd⟩
    refine ⟨rfl, ?_⟩
    intro x hx
    simp at hx
    rcases hx with rfl | rfl | rfl | rfl <;> assumption

theorem isIPv4_ofVal (v : Nat) : IsIPv4 (ofVal v) := by
  rw [isIPv4_iff]
  exact ⟨_, _, _, _, rfl, Nat.mod_lt _ (by norm_num), Nat.mod_lt _ (by norm_num),
    Nat.mod_lt _ (by norm_num), Nat.mod_lt _ (by norm_num)⟩

theorem ipVal_four (a b c d : Nat) :
    ipVal [a, b, c, d] = a * 16777216 + b * 65536 + c * 256 + d := by
  simp [ipVal]; ring

theorem ipVal_ofVal (v : Nat) : ipVal (ofVal v) = v % 4294967296 := by
  rw [ofVal, ipVal_four]; omega

theorem ofVal_ipVal (ip : List Nat) (h : IsIPv4 ip) : ofVal (ipVal ip) = ip := by
  obtain ⟨a, b, c, d, rfl, ha, hb, hc, hd⟩ := (isIPv4_iff ip).1 h
  rw [ipVal_four, ofVal]
  congr 1
  · omega
  congr 1
  · omega
  congr 1
  · omega
  congr 1
  omega

theorem ofVal_mod (v : Nat) : ofVal (v % 4294967296) = ofVal v := by
  have h := ofVal_ipVal (ofVal v) (isIPv4_ofVal v)
  rw [ipVal_ofVal] at h
  exact h

theorem ipVal_lt (ip : List Nat) (h : IsIPv4 ip) : ipVal ip < 4294967296 := by
  obtain ⟨a, b, c, d, rfl, ha, hb, hc, hd⟩ := (isIPv4_iff ip).1 h
  rw [ipVal_four]; omega

/-! ## `inc` adds one modulo `2^32` -/

theorem inc_four (a b c d : Nat) (ha : a < 256) (hb : b < 256) (hc : c < 256) (hd : d < 256) :
    IsIPv4 (inc [a, b, c, d]) ∧
      ipVal (inc [a, b, c, d]) = (ipVal [a, b, c, d] + 1) % 4294967296 := by
  simp only [inc, List.reverse_cons, List.reverse_nil, List.nil_append, List.cons_append, incRev]
  split_ifs <;>
    simp only [List.reverse_cons, List.reverse_nil, List.nil_append, List.cons_append,
      List.singleton_append, ipVal_four, isIPv4_iff] <;>
    refine ⟨⟨_, _, _, _, rfl, ?_, ?_, ?_, ?_⟩, ?_⟩ <;> omega

theorem inc_ofVal (v : Nat) : inc (ofVal v) = ofVal (v + 1) := by
  obtain ⟨a, b, c, d, h, ha, hb, hc, hd⟩ := (isIPv4_iff _).1 (isIPv4_ofVal v)
  have h1 := inc_four a b c d ha hb hc hd
  rw [← h] at h1
  rw [← ofVal_ipVal _ h1.1, h1.2, ipVal_ofVal, ofVal_mod]
  rw [← ofVal_mod (v + 1), ← ofVal_mod (v % 4294967296 + 1)]
  congr 1
  omega

/-! ## The mask of a prefix length -/

set_option maxRecDepth 100000 in
theorem and_255 (a : Nat) (h : a < 256) : a &&& 255 = a := by
  have : ∀ a < 256, a &&& 255 = a := by decide
  exact this a h

set_option maxRecDepth 1000000 in
theorem and_low_bits (r : Nat) (hr : r < 8) (a : Nat) (h : a < 256) :
    a &&& (255 - 255 >>> r) = a / 2 ^ (8 - r) * 2 ^ (8 - r) := by
  have : ∀ r < 8, ∀ a < 256, a &&& (255 - 255 >>> r) = a / 2 ^ (8 - r) * 2 ^ (8 - r) := by
    decide
  exact this r hr a h

theorem and_idem (a m : Nat) : a &&& m &&& m = a &&& m := by
  rw [Nat.land_assoc, Nat.and_self]

/-- The partial mask bytes as arithmetic. -/
theorem and_lits (a : Nat) (h : a < 256) :
    a &&& 0 = 0 ∧ a &&& 128 = a / 128 * 128 ∧ a &&& 192 = a / 64 * 64 ∧
    a &&& 224 = a / 32 * 32 ∧ a &&& 240 = a / 16 * 16 ∧ a &&& 248 = a / 8 * 8 ∧
    a &&& 252 = a / 4 * 4 ∧ a &&& 254 = a / 2 * 2 ∧ a &&& 255 = a := by
  refine ⟨by simp, ?_, ?_, ?_, ?_, ?_, ?_, ?_, and_255 a h⟩
  · exact and_low_bits 1 (by norm_num) a h
  · exact and_low_bits 2 (by norm_num) a h
  · exact and_low_bits 3 (by norm_num) a h
  · exact and_low_bits 4 (by norm_num) a h
  · exact and_low_bits 5 (by norm_num) a h
  · exact and_low_bits 6 (by norm_num) a h
  · exact and_low_bits 7 (by norm_num) a h

theorem length_cidrMaskLoop (l n : Nat) : (cidrMaskLoop l n).length = l := by
  induction l generalizing n with
  | zero => rfl
  | succ l ih =>
    simp only [cidrMaskLoop]
    split_ifs <;> simp [ih]

theorem length_cidrMask (p : Nat) (hp : p ≤ 32) : (cidrMask p 32).length = 4 := by
  simp [cidrMask, hp, length_cidrMaskLoop]

/-- On a 4-byte address and a 4-byte mask `Mask` is the byte loop. -/
theorem maskIP_len4 (ip mask : List Nat) (hi : ip.length = 4) (hm : mask.length = 4) :
    maskIP ip mask = maskLoop ip mask := by
  simp [maskIP, hi, hm]

/-- On a 4-byte network, mask and address `Contains` is the byte loop. -/
theorem contains_len4 (n : IPNet) (ip : List Nat) (hn : n.ip.length = 4)
    (hm : n.mask.length = 4) (hi : ip.length = 4) :
    contains n ip = containsLoop n.ip n.mask ip := by
  simp [contains, networkNumberAndMask, to4, hn, hm, hi]

set_option maxHeartbeats 4000000 in
theorem mask_four (p : Nat) (hp : p ≤ 32) (a b c d : Nat)
    (ha : a < 256) (hb : b < 256) (hc : c < 256) (hd : d < 256) :
    IsIPv4 (maskIP [a, b, c, d] (cidrMask p 32)) ∧
      ipVal (maskIP [a, b, c, d] (cidrMask p 32))
        = ipVal [a, b, c, d] / 2 ^ (32 - p) * 2 ^ (32 - p) := by
  obtain ⟨a0, a1, a2, a3, a4, a5, a6, a7, a8⟩ := and_lits a ha
  obtain ⟨b0, b1, b2, b3, b4, b5, b6, b7, b8⟩ := and_lits b hb
  obtain ⟨c0, c1, c2, c3, c4, c5, c6, c7, c8⟩ := and_lits c hc
  obtain ⟨d0, d1, d2, d3, d4, d5, d6, d7, d8⟩ := and_lits d hd
  rw [maskIP_len4 [a, b, c, d] _ rfl (length_cidrMask p hp)]
  interval_cases p <;>
    simp only [cidrMask, cidrMaskLoop, maskLoop, isIPv4_iff, ipVal_four,
      List.length_cons, List.length_nil, Nat.reduceAdd, Nat.reduceDiv, Nat.reduceSub,
      Nat.reduceLeDiff, Nat.reduceShiftRight, Nat.reducePow, Nat.reduceEqDiff, ge_iff_le,
      true_or, true_and, and_self, if_true, if_false, le_refl, zero_le, Nat.reduceMul,
      a0, a1, a2, a3, a4, a5, a6, a7, a8, b0, b1, b2, b3, b4, b5, b6, b7, b8,
      c0, c1, c2, c3, c4, c5, c6, c7, c8, d0, d1, d2, d3, d4, d5, d6, d7, d8] <;>
    clear a0 a1 a2 a3 a4 a5 a6 a7 a8 b0 b1 b2 b3 b4 b5 b6 b7 b8
      c0 c1 c2 c3 c4 c5 c6 c7 c8 d0 d1 d2 d3 d4 d5 d6 d7 d8 <;>
    refine ⟨⟨_, _, _, _, rfl, ?_, ?_, ?_, ?_⟩, ?_⟩ <;> omega

theorem containsLoop_iff (a : List Nat) :
    ∀ (m x : List Nat), a.length = m.length → x.length = m.length →
      (containsLoop (maskLoop a m) m x = true ↔ maskLoop x m = maskLoop a m) := by
  induction a with
  | nil =>
    intro m x ha hx
    cases m with
    | nil =>
      cases x with
      | nil => simp [containsLoop, maskLoop]
      | cons y x => simp at hx
    | cons k m => simp at ha
  | cons b a ih =>
    intro m x ha hx
    cases m with
    | nil => simp at ha
    | cons k m =>
      cases x with
      | nil => simp at hx
      | cons y x =>
        simp only [List.length_cons, Nat.add_right_cancel_iff] at ha hx
        simp only [maskLoop, containsLoop, and_idem, List.cons.injEq]
        by_cases hb : b &&& k = y &&& k
        · simp [hb, ih m x ha hx]
        · simp [hb, Ne.symm hb]

/-- The test `Contains` on the network of a parsed range compares the top
`p` bits: the address divided by `2^(32-p)`. -/
theorem contains_net (p : Nat) (hp : p ≤ 32) (addr : List Nat) (h : IsIPv4 addr) (v : Nat) :
    contains ⟨maskIP addr (cidrMask p 32), cidrMask p 32⟩ (ofVal v) = true ↔
      v % 4294967296 / 2 ^ (32 - p) = ipVal addr / 2 ^ (32 - p) := by
  have hm := length_cidrMask p hp
  have hx := isIPv4_ofVal v
  obtain ⟨a, b, c, d, rfl, ha, hb, hc, hd⟩ := (isIPv4_iff addr).1 h
  obtain ⟨x, y, z, w, hv, hx1, hx2, hx3, hx4⟩ := (isIPv4_iff _).1 hx
  obtain ⟨ma, mva⟩ := mask_four p hp a b c d ha hb hc hd
  obtain ⟨mx, mvx⟩ := mask_four p hp x y z w hx1 hx2 hx3 hx4
  have hS : 0 < 2 ^ (32 - p) := pow_pos (by norm_num) _
  have key : contains ⟨maskIP [a, b, c, d] (cidrMask p 32), cidrMask p 32⟩ [x, y, z, w] = true ↔
      maskIP [x, y, z, w] (cidrMask p 32) = maskIP [a, b, c, d] (cidrMask p 32) := by
    have hl : (maskIP [a, b, c, d] (cidrMask p 32)).length = 4 := ma.1
    rw [contains_len4 _ [x, y, z, w] hl hm rfl]
    simp only [maskIP_len4 _ _ (rfl : [a, b, c, d].length = 4) hm,
      maskIP_len4 _ _ (rfl : [x, y, z, w].length = 4) hm]
    exact containsLoop_iff _ _ _ (by simp [hm]) (by simp [hm])
  rw [hv, key, ← ipVal_ofVal v, hv]
  constructor
  · intro heq
    have := congrArg ipVal heq
    rw [mvx, mva] at this
    exact Nat.eq_of_mul_eq_mul_right hS this
  · intro heq
    rw [← ofVal_ipVal _ mx, ← ofVal_ipVal _ ma, mvx, mva, heq]

theorem mask_net (p : Nat) (hp : p ≤ 32) (addr : List Nat) (h : IsIPv4 addr) :
    maskIP addr (cidrMask p 32) = ofVal (ipVal addr / 2 ^ (32 - p) * 2 ^ (32 - p)) := by
  obtain ⟨a, b, c, d, rfl, ha, hb, hc, hd⟩ := (isIPv4_iff addr).1 h
  obtain ⟨h1, h2⟩ := mask_four p hp a b c d ha hb hc hd
  rw [← h2, ofVal_ipVal _ h1]

/-- Inside the network: the first `2^(32-p)` addresses from the network
address on are contained. -/
theorem contains_inside (p : Nat) (hp : p ≤ 32) (addr : List Nat) (h : IsIPv4 addr)
    (k : Nat) (hk : k < 2 ^ (32 - p)) :
    contains ⟨maskIP addr (cidrMask p 32), cidrMask p 32⟩
      (ofVal (ipVal addr / 2 ^ (32 - p) * 2 ^ (32 - p) + k)) = true := by
  rw [contains_net p hp addr h]
  have hA := ipVal_lt addr h
  generalize ipVal addr = A at hA ⊢
  interval_cases p <;> simp only [Nat.reduceSub, Nat.reducePow] at hk ⊢ <;> omega

/-- Outside the network: for `p ≥ 1` the address `2^(32-p)` steps after the
network address (modulo `2^32`) is not contained. -/
theorem contains_after (p : Nat) (hp1 : 1 ≤ p) (hp : p ≤ 32) (addr : List Nat)
    (h : IsIPv4 addr) :
    contains ⟨maskIP addr (cidrMask p 32), cidrMask p 32⟩
      (ofVal (ipVal addr / 2 ^ (32 - p) * 2 ^ (32 - p) + 2 ^ (32 - p))) = false := by
  rw [← Bool.not_eq_true, contains_net p hp addr h]
  have hA := ipVal_lt addr h
  generalize ipVal addr = A at hA ⊢
  interval_cases p <;> simp only [Nat.reduceSub, Nat.reducePow] <;> omega

/-! ## The enumeration loop -/

theorem enumLoop_run (n : IPNet) (N S : Nat)
    (hin : ∀ k < S, contains n (ofVal (N + k)) = true)
    (hout : contains n (ofVal (N + S)) = false) :
    ∀ j k acc fuel, k + j = S → j < fuel →
      enumLoop n fuel (ofVal (N + k)) acc
        = some (acc ++ (List.range' k j).map (fun i => ipString (ofVal (N + i)))) := by
  intro j
  induction j with
  | zero =>
    intro k acc fuel hk hf
    obtain ⟨f, rfl⟩ : ∃ f, fuel = f + 1 := ⟨fuel - 1, by omega⟩
    have : k = S := by omega
    subst this
    simp [enumLoop, hout]
  | succ j ih =>
    intro k acc fuel hk hf
    obtain ⟨f, rfl⟩ : ∃ f, fuel = f + 1 := ⟨fuel - 1, by omega⟩
    have hc := hin k (by omega)
    simp only [enumLoop, hc, if_true, inc_ofVal]
    rw [show N + k + 1 = N + (k + 1) by omega, ih (k + 1) _ f (by omega) (by omega)]
    simp [List.range'_succ]

theorem enumLoop_short (n : IPNet) (N S : Nat)
    (hin : ∀ k < S, contains n (ofVal (N + k)) = true) :
    ∀ fuel k acc, k + fuel ≤ S → enumLoop n fuel (ofVal (N + k)) acc = none := by
  intro fuel
  induction fuel with
  | zero => intro k acc _; rfl
  | succ f ih =>
    intro k acc hk
    have hc := hin k (by omega)
    simp only [enumLoop, hc, if_true, inc_ofVal]
    rw [show N + k + 1 = N + (k + 1) by omega]
    exact ih (k + 1) _ (by omega)

/-- The loop on a network of prefix length `p ≥ 1`: with more than
`2^(32-p)` units of fuel it ends with the `2^(32-p)` addresses in order. -/
theorem enumLoop_net (p : Nat) (hp1 : 1 ≤ p) (hp : p ≤ 32) (addr : List Nat) (h : IsIPv4 addr)
    (fuel : Nat) (hf : 2 ^ (32 - p) < fuel) :
    enumLoop ⟨maskIP addr (cidrMask p 32), cidrMask p 32⟩ fuel
        (maskIP addr (cidrMask p 32)) []
      = some ((List.range' 0 (2 ^ (32 - p))).map
          (fun i => ipString (ofVal (ipVal addr / 2 ^ (32 - p) * 2 ^ (32 - p) + i)))) := by
  have := enumLoop_run ⟨maskIP addr (cidrMask p 32), cidrMask p 32⟩
    (ipVal addr / 2 ^ (32 - p) * 2 ^ (32 - p)) (2 ^ (32 - p))
    (fun k hk => contains_inside p hp addr h k hk) (contains_after p hp1 hp addr h)
    (2 ^ (32 - p)) 0 [] fuel (by omega) hf
  rw [mask_net p hp addr h] at this ⊢
  simpa using this

/-- The loop is still running after `2^(32-p)` tests of its condition. -/
theorem enumLoop_net_short (p : Nat) (hp : p ≤ 32) (addr : List Nat) (h : IsIPv4 addr)
    (fuel : Nat) (hf : fuel ≤ 2 ^ (32 - p)) :
    enumLoop ⟨maskIP addr (cidrMask p 32), cidrMask p 32⟩ fuel
        (maskIP addr (cidrMask p 32)) [] = none := by
  have := enumLoop_short ⟨maskIP addr (cidrMask p 32), cidrMask p 32⟩
    (ipVal addr / 2 ^ (32 - p) * 2 ^ (32 - p)) (2 ^ (32 - p))
    (fun k hk => contains_inside p hp addr h k hk) fuel 0 [] (by omega)
  rw [mask_net p hp addr h] at this ⊢
  simpa using this

/-- On the prefix length 0 every address is contained and the loop never
ends. -/
theorem enumLoop_zero (addr : List Nat) (h : IsIPv4 addr) :
    ∀ fuel v acc,
      enumLoop ⟨maskIP addr (cidrMask 0 32), cidrMask 0 32⟩ fuel (ofVal v) acc = none := by
  intro fuel
  induction fuel with
  | zero => intro v acc; rfl
  | succ f ih =>
    intro v acc
    have hc : contains ⟨maskIP addr (cidrMask 0 32), cidrMask 0 32⟩ (ofVal v) = true := by
      rw [contains_net 0 (by norm_num) addr h]
      have hA := ipVal_lt addr h
      simp only [Nat.reduceSub, Nat.reducePow]
      omega
    simp only [enumLoop, hc, if_true, inc_ofVal]
    exact ih _ _

/-! ## What `ParseCIDR` hands to the loop -/

theorem parseIPv4Fields_isIPv4 :
    ∀ (cs : List Char) (prev : Option Char) (val digLen : Nat) (fields out : List Nat),
      val < 256 → fields.length ≤ 3 → (∀ b ∈ fields, b < 256) →
      parseIPv4Fields cs prev val digLen fields = some out → IsIPv4 out := by
  intro cs
  induction cs with
  | nil =>
    intro prev val digLen fields out hv hl hb h
    simp only [parseIPv4Fields] at h
    split_ifs at h with h3
    cases h
    refine ⟨by simp; omega, ?_⟩
    intro b hb'
    rcases List.mem_append.1 hb' with h1 | h1
    · exact hb b h1
    · simp at h1; omega
  | cons c rest ih =>
    intro prev val digLen fields out hv hl hb h
    simp only [parseIPv4Fields] at h
    split_ifs at h with h1 h2 h3 h4 h5 h6
    · exact ih _ _ _ _ _ (by omega) hl hb h
    · refine ih _ _ _ _ _ (by norm_num) (by simp; omega) ?_ h
      intro b hb'
      rcases List.mem_append.1 hb' with h7 | h7
      · exact hb b h7
      · simp at h7; omega

/-- A successful IPv4 parse gives four bytes, a prefix length of at most 32
and the network made of the masked address and the mask. -/
theorem parseCIDR_ok4 (s : String) (addr : List Nat) (net : IPNet)
    (h : parseCIDR s = ParseResult.ok4 addr net) :
    IsIPv4 addr ∧ ∃ p, p ≤ 32 ∧ net = ⟨maskIP addr (cidrMask p 32), cidrMask p 32⟩ := by
  unfold parseCIDR at h
  split at h
  · cases h
  · split at h
    · cases h
    · split_ifs at h
      split at h
      · cases h
      · split at h
        · cases h
        · split_ifs at h
    · split at h
      · cases h
      · rename_i a0 hparse
        split at h
        · cases h
        · rename_i n hn
          split_ifs at h with h32
          cases h
          exact ⟨parseIPv4Fields_isIPv4 _ _ _ _ _ _ (by norm_num) (by simp) (by simp) hparse,
            n, by omega, rfl⟩

/-! ## `cidrIPs` on IPv4 text -/

theorem usable_range (f : Nat → String) (S : Nat) (hS : 2 ≤ S) :
    usable ((List.range' 0 S).map f) = some ((List.range (S - 2)).map (fun i => f (1 + i))) := by
  obtain ⟨m, rfl⟩ : ∃ m, S = m + 2 := ⟨S - 2, by omega⟩
  simp only [usable, List.length_map, List.length_range']
  rw [if_neg (by omega)]
  congr 1
  apply List.ext_getElem
  · simp
  · intro i h1 h2
    simp only [List.getElem_take, List.getElem_drop, List.getElem_map, List.getElem_range',
      List.getElem_range, Nat.zero_add, Nat.one_mul]

/-- The loop result for every prefix length from 1 to 31: the addresses
strictly between the network and the broadcast address, in order. -/
theorem cidrIPs_usable (s : String) (addr : List Nat) (p fuel : Nat) (hp1 : 1 ≤ p) (hp : p ≤ 31)
    (h : parseCIDR s = ParseResult.ok4 addr ⟨maskIP addr (cidrMask p 32), cidrMask p 32⟩)
    (hf : 2 ^ (32 - p) < fuel) :
    cidrIPs fuel s = CidrResult.ok ((List.range (2 ^ (32 - p) - 2)).map
      (fun i => ipString (ofVal (ipVal addr / 2 ^ (32 - p) * 2 ^ (32 - p) + (1 + i))))) := by
  obtain ⟨hw, -⟩ := parseCIDR_ok4 s addr _ h
  have hS : 2 ≤ 2 ^ (32 - p) := by
    calc 2 = 2 ^ 1 := by norm_num
      _ ≤ 2 ^ (32 - p) := Nat.pow_le_pow_right (by norm_num) (by omega)
  simp only [cidrIPs, cidrLoop, h, enumLoop_net p hp1 (by omega) addr hw fuel hf]
  rw [usable_range _ _ hS]

/-- On the prefix length 32 the loop collects one address and the slice
expression is out of range. -/
theorem cidrIPs_32 (s : String) (addr : List Nat) (fuel : Nat)
    (h : parseCIDR s = ParseResult.ok4 addr ⟨maskIP addr (cidrMask 32 32), cidrMask 32 32⟩)
    (hf : 1 < fuel) :
    cidrIPs fuel s = CidrResult.panic := by
  obtain ⟨hw, -⟩ := parseCIDR_ok4 s addr _ h
  have := enumLoop_net 32 (by norm_num) (by norm_num) addr hw fuel (by simpa using hf)
  simp only [cidrIPs, cidrLoop, h, this]
  rfl

/-- On the prefix length 0 the call is still running, whatever the fuel. -/
theorem cidrIPs_zero (s : String) (addr : List Nat) (fuel : Nat)
    (h : parseCIDR s = ParseResult.ok4 addr ⟨maskIP addr (cidrMask 0 32), cidrMask 0 32⟩) :
    cidrIPs fuel s = CidrResult.running := by
  obtain ⟨hw, -⟩ := parseCIDR_ok4 s addr _ h
  have := enumLoop_zero addr hw fuel (ipVal addr / 2 ^ (32 - 0) * 2 ^ (32 - 0)) []
  rw [← mask_net 0 (by norm_num) addr hw] at this
  simp only [cidrIPs, cidrLoop, h, this]

/-- With too little fuel the call is still running. -/
theorem cidrIPs_short (s : String) (addr : List Nat) (p fuel : Nat) (hp : p ≤ 32)
    (h : parseCIDR s = ParseResult.ok4 addr ⟨maskIP addr (cidrMask p 32), cidrMask p 32⟩)
    (hf : fuel ≤ 2 ^ (32 - p)) :
    cidrIPs fuel s = CidrResult.running := by
  obtain ⟨hw, -⟩ := parseCIDR_ok4 s addr _ h
  simp only [cidrIPs, cidrLoop, h, enumLoop_net_short p hp addr hw fuel hf]

/-! ## The generator -/

theorem genLoop_done (ips : List String) (rnd : Nat → Nat) (now : Nat → Int) (cap : Nat)
    (h : ips ≠ []) :
    ∀ k i jobs, jobs.length + k ≤ cap →
      genLoop ips rnd now cap k i jobs
        = GenResult.done (jobs ++ (List.range' i k).map
            (fun t => ⟨now t, (ips[rnd t % ips.length]?).getD ""⟩)) := by
  have hlen : 0 < ips.length := List.length_pos.2 h
  intro k
  induction k with
  | zero => intro i jobs _; simp [genLoop]
  | succ k ih =>
    intro i jobs hc
    have hidx : rnd i % ips.length < ips.length := Nat.mod_lt _ hlen
    have hcap : jobs.length < cap := by omega
    simp only [genLoop, intn, if_neg (Nat.pos_iff_ne_zero.1 hlen), List.getElem?_eq_getElem hidx,
      hcap, if_true]
    rw [ih (i + 1) _ (by simp; omega)]
    simp [List.range'_succ, List.getElem?_eq_getElem hidx]

/-! ## The transition system -/

theorem busy_set (ws : List Worker) (i : Nat) (w v : Worker) (h : ws[i]? = some w) :
    ((ws.set i v).map busy).sum + busy w = (ws.map busy).sum + busy v := by
  induction ws generalizing i with
  | nil => simp at h
  | cons x xs ih =>
    cases i with
    | zero =>
      simp only [List.getElem?_cons_zero, Option.some.injEq] at h
      subst h
      simp only [List.set_cons_zero, List.map_cons, List.sum_cons]
      omega
    | succ i =>
      simp only [List.getElem?_cons_succ] at h
      have := ih i h
      simp only [List.set_cons_succ, List.map_cons, List.sum_cons]
      omega

theorem step_not_aborted (s t : Sys) (a : Action) (h : step s a = some t) :
    s.aborted = false ∧ s.driver ≠ Driver.finished := by
  unfold step at h
  split_ifs at h with h1
  push_neg at h1
  exact ⟨by simpa using h1.1, h1.2⟩

theorem driverStep_inv (N : Nat) (s t : Sys) (h : driverStep s = some t) (hs : Inv N s)
    (hna : s.aborted = false) : Inv N t := by
  obtain ⟨hr, hcount, hd⟩ := hs hna
  unfold driverStep at h
  intro _
  split at h
  · rename_i w hw
    rw [hw] at hd
    split_ifs at h
    · cases h
      refine ⟨hr, ?_, hd⟩
      simp only [inFlight, emitted, List.map_append, List.sum_append, List.map_cons, List.map_nil,
        List.sum_cons, List.sum_nil, busy] at hcount ⊢
      omega
    · cases h
      simp only [inFlight, emitted] at hcount ⊢
      refine ⟨hr, hcount, ?_⟩
      simp only [hd]
      exact ⟨rfl, Nat.zero_le _⟩
  · rename_i a ha
    rw [ha] at hd
    split_ifs at h with hlt
    · split at h
      · cases h
      · rename_i d rest hres
        cases h
        simp only [inFlight, emitted, hres, List.length_cons] at hcount ⊢
        refine ⟨hr, by omega, ?_⟩
        show (a + 1 : Int) = ((s.received + 1 : Nat) : Int) ∧ s.received + 1 ≤ N
        refine ⟨?_, by omega⟩
        rw [hd.1]; push_cast; rfl
    · cases h
      simp only [inFlight, emitted] at hcount ⊢
      refine ⟨hr, hcount, ?_⟩
      show s.received = N
      have h1 : (s.received : Int) = a := hd.1.symm
      have h2 := hd.2
      rw [hr] at hlt
      omega
  · cases h

theorem writeWorker_inv (N : Nat) (s t : Sys) (i : Nat) (a : Action)
    (h : writeWorker s i a = some t) (hs : Inv N s) (hna : s.aborted = false) : Inv N t := by
  obtain ⟨hr, hcount, hd⟩ := hs hna
  unfold writeWorker at h
  intro hta
  simp only [inFlight, emitted] at hcount
  split at h
  · rename_i hw
    split_ifs at h
    · cases h
      have := busy_set s.workers i _ Worker.waiting hw
      simp only [busy] at this
      exact ⟨hr, by simp only [inFlight, emitted]; omega, hd⟩
    · cases h; simp at hta
  · rename_i hw
    split at h
    · cases h
    · rename_i j rest hj
      cases h
      have := busy_set s.workers i _ (Worker.limited j) hw
      simp only [busy] at this
      simp only [hj, List.length_cons] at hcount
      exact ⟨hr, by simp only [inFlight, emitted]; omega, hd⟩
  · rename_i j _ hw
    cases h
    have := busy_set s.workers i _ (Worker.writing j) hw
    simp only [busy] at this
    exact ⟨hr, by simp only [inFlight, emitted]; omega, hd⟩
  · rename_i j _ r hw
    split at h
    · cases h; simp at hta
    · rename_i d
      cases h
      have := busy_set s.workers i _ (Worker.sending j d) hw
      simp only [busy] at this
      exact ⟨hr, by simp only [inFlight, emitted]; omega, hd⟩
  · rename_i j d _ hw
    split_ifs at h
    cases h
    have := busy_set s.workers i _ Worker.waiting hw
    simp only [busy] at this
    exact ⟨hr, by simp only [inFlight, emitted, List.length_append, List.length_singleton]; omega, hd⟩
  · cases h

theorem step_inv (N : Nat) (s t : Sys) (a : Action) (h : step s a = some t) (hs : Inv N s) :
    Inv N t := by
  have hna := (step_not_aborted s t a h).1
  unfold step at h
  split_ifs at h
  cases a with
  | driver => exact driverStep_inv N s t h hs hna
  | connect i ok => exact writeWorker_inv N s t i _ h hs hna
  | recv i => exact writeWorker_inv N s t i _ h hs hna
  | take i => exact writeWorker_inv N s t i _ h hs hna
  | write i r => exact writeWorker_inv N s t i _ h hs hna
  | send i => exact writeWorker_inv N s t i _ h hs hna

theorem run_inv (N : Nat) (acts : List Action) :
    ∀ (s t : Sys), run s acts = some t → Inv N s → Inv N t := by
  induction acts with
  | nil =>
    intro s t h hs
    simp only [run, Option.some.injEq] at h
    exact h ▸ hs
  | cons a rest ih =>
    intro s t h hs
    simp only [run] at h
    split at h
    · cases h
    · rename_i u hu
      exact ih u t h (step_inv N s u a hu hs)

theorem initSys_inv (N : Nat) (threads : Int) (table family : String) (jobs : List Data)
    (h : jobs.length = N) : Inv N (initSys N threads table family jobs) := by
  intro _
  simp [initSys, inFlight, emitted, h]

theorem net_top (p : Nat) (hp : p ≤ 32) (A : Nat) (hA : A < 4294967296) :
    A / 2 ^ (32 - p) * 2 ^ (32 - p) + 2 ^ (32 - p) ≤ 4294967296 := by
  interval_cases p <;> simp only [Nat.reduceSub, Nat.reducePow] <;> omega

/-! ## Properties of `cidrIPs` -/

/-- C1, at the range `0.0.0.0/0`: the call of `cidrIPs` never returns.  The
network of prefix length 0 contains every address, so the loop condition
holds again after `inc` has wrapped around, whatever the number of loop
tests allowed. -/
theorem cidrIPs_slash_zero_never_returns :
    ∀ fuel, cidrIPs fuel "0.0.0.0/0" = CidrResult.running := by
  intro fuel
  exact cidrIPs_zero "0.0.0.0/0" [0, 0, 0, 0] fuel (by rfl)

/-- C2 as stated fails: on the well-formed range `10.0.0.0/31` the call of
`cidrIPs` returns the empty list as a success, not an error. -/
theorem cidrIPs_slash31_is_success :
    cidrIPs 3 "10.0.0.0/31" = CidrResult.ok [] ∧ cidrIPs 3 "10.0.0.0/31" ≠ CidrResult.error := by
  decide

/-- C2, amended: on every well-formed IPv4 range of prefix length 31 the call
of `cidrIPs` returns the empty list without error (three loop tests are
enough), and on any text `cidrIPs` returns an error exactly when `ParseCIDR`
does: it has no check of the size of the range. -/
theorem cidrIPs_slash31_empty (s : String) (addr : List Nat) (fuel : Nat)
    (h : parseCIDR s = ParseResult.ok4 addr ⟨maskIP addr (cidrMask 31 32), cidrMask 31 32⟩)
    (hf : 2 < fuel) :
    cidrIPs fuel s = CidrResult.ok [] ∧
      ∀ f t, cidrIPs f t = CidrResult.error ↔ parseCIDR t = ParseResult.err := by
  constructor
  · have := cidrIPs_usable s addr 31 fuel (by norm_num) (by norm_num) h (by simpa using hf)
    simpa using this
  · intro f t
    unfold cidrIPs
    split
    · simp [*]
    · rename_i a n hp
      simp only [hp, cidrLoop]
      split
      · simp
      · split <;> simp
    · rename_i a n hp
      simp only [hp, cidrLoop]
      split
      · simp
      · split <;> simp

theorem cidrIPs_slash31_empty_witness :
    parseCIDR "10.0.0.1/31"
        = ParseResult.ok4 [10, 0, 0, 1]
            ⟨maskIP [10, 0, 0, 1] (cidrMask 31 32), cidrMask 31 32⟩ ∧
      2 < 5 ∧
      (cidrIPs 5 "10.0.0.1/31" = CidrResult.ok [] ∧
        ∀ f t, cidrIPs f t = CidrResult.error ↔ parseCIDR t = ParseResult.err) :=
  ⟨by rfl, by decide, cidrIPs_slash31_empty "10.0.0.1/31" [10, 0, 0, 1] 5 (by rfl) (by decide)⟩

/-- C3 as stated fails: `cidrIPs` also succeeds on IPv6 ranges.  On
`2001:db8::/126` it returns the two addresses `2001:db8::1` and
`2001:db8::2`, and no 32-bit number has the text `2001:db8::1`: the list is
not one of 32-bit addresses `network + 1 + i`. -/
theorem cidrIPs_succeeds_on_ipv6_range :
    cidrIPs 5 "2001:db8::/126" = CidrResult.ok ["2001:db8::1", "2001:db8::2"] ∧
      ∀ v, ipString (ofVal v) ≠ "2001:db8::1" := by
  refine ⟨by decide, ?_⟩
  intro v hv
  have hdot : '.' ∈ (ipString (ofVal v)).data := by
    simp [ipString, ipChars, ofVal]
  rw [hv] at hdot
  revert hdot
  decide

/-- C3, amended to IPv4 text: whenever `cidrIPs` succeeds on a range that
`ParseCIDR` reads as IPv4 text (a dotted-decimal address), the prefix length
`p` is between 1 and 31 and the returned list is, in this order, the text of
the addresses numbered `network + 1 + i` for `i = 0, …, 2^(32-p) - 3`, where
`network` is the number of the masked address; none of these numbers reaches
`2^32`, so the list is strictly ascending without gaps: the enumeration of the
range without its first and its last element. -/
theorem cidrIPs_ascending (s : String) (addr : List Nat) (net : IPNet) (fuel : Nat)
    (l : List String) (hparse : parseCIDR s = ParseResult.ok4 addr net)
    (hok : cidrIPs fuel s = CidrResult.ok l) :
    ∃ p, 1 ≤ p ∧ p ≤ 31 ∧ net = ⟨maskIP addr (cidrMask p 32), cidrMask p 32⟩ ∧
      ipVal net.ip = ipVal addr / 2 ^ (32 - p) * 2 ^ (32 - p) ∧
      ipVal net.ip + 2 ^ (32 - p) ≤ 4294967296 ∧
      l = (List.range (2 ^ (32 - p) - 2)).map
        (fun i => ipString (ofVal (ipVal net.ip + 1 + i))) := by
  obtain ⟨hw, p, hp, rfl⟩ := parseCIDR_ok4 s addr net hparse
  have hA := ipVal_lt addr hw
  have hN : ipVal (maskIP addr (cidrMask p 32)) = ipVal addr / 2 ^ (32 - p) * 2 ^ (32 - p) := by
    rw [mask_net p hp addr hw, ipVal_ofVal]
    have := net_top p hp _ hA
    have : 0 < 2 ^ (32 - p) := pow_pos (by norm_num) _
    exact Nat.mod_eq_of_lt (by omega)
  rcases Nat.eq_zero_or_pos p with h0 | h1
  · subst h0
    rw [cidrIPs_zero s addr fuel hparse] at hok
    cases hok
  rcases Nat.lt_or_ge p 32 with h31 | h32
  · refine ⟨p, h1, by omega, rfl, hN, ?_, ?_⟩
    · show ipVal (maskIP addr (cidrMask p 32)) + _ ≤ _
      rw [hN]; exact net_top p hp _ hA
    · rcases Nat.lt_or_ge (2 ^ (32 - p)) fuel with hf | hf
      · rw [cidrIPs_usable s addr p fuel h1 (by omega) hparse hf] at hok
        simp only [CidrResult.ok.injEq] at hok
        rw [← hok]
        show _ = List.map (fun i => ipString (ofVal (ipVal (maskIP addr (cidrMask p 32)) + 1 + i))) _
        rw [hN]
        simp only [Nat.add_assoc]
      · rw [cidrIPs_short s addr p fuel hp hparse hf] at hok
        cases hok
  · have : p = 32 := by omega
    subst this
    rcases Nat.lt_or_ge 1 fuel with hf | hf
    · rw [cidrIPs_32 s addr fuel hparse hf] at hok
      cases hok
    · rw [cidrIPs_short s addr 32 fuel hp hparse (by simpa using hf)] at hok
      cases hok

theorem cidrIPs_ascending_witness :
    parseCIDR "10.0.0.0/30"
        = ParseResult.ok4 [10, 0, 0, 0] ⟨[10, 0, 0, 0], [255, 255, 255, 252]⟩ ∧
      cidrIPs 5 "10.0.0.0/30" = CidrResult.ok ["10.0.0.1", "10.0.0.2"] ∧
      ∃ p, 1 ≤ p ∧ p ≤ 31 ∧
        (⟨[10, 0, 0, 0], [255, 255, 255, 252]⟩ : IPNet)
          = ⟨maskIP [10, 0, 0, 0] (cidrMask p 32), cidrMask p 32⟩ ∧
        ipVal [10, 0, 0, 0] = ipVal [10, 0, 0, 0] / 2 ^ (32 - p) * 2 ^ (32 - p) ∧
        ipVal [10, 0, 0, 0] + 2 ^ (32 - p) ≤ 4294967296 ∧
        ["10.0.0.1", "10.0.0.2"] = (List.range (2 ^ (32 - p) - 2)).map
          (fun i => ipString (ofVal (ipVal [10, 0, 0, 0] + 1 + i))) :=
  ⟨by rfl, by rfl,
    cidrIPs_ascending "10.0.0.0/30" [10, 0, 0, 0] ⟨[10, 0, 0, 0], [255, 255, 255, 252]⟩ 5
      ["10.0.0.1", "10.0.0.2"] (by rfl) (by rfl)⟩

/-- C9, at the range `0.0.0.0/0`: the enumeration loop of `cidrIPs` does not
end.  `ParseCIDR` gives the network `0.0.0.0` with the mask `0.0.0.0`, and
from the masked address the loop is still running after any number of loop
tests. -/
theorem enumLoop_slash_zero_never_ends :
    parseCIDR "0.0.0.0/0" = ParseResult.ok4 [0, 0, 0, 0] ⟨[0, 0, 0, 0], [0, 0, 0, 0]⟩ ∧
      ∀ fuel, enumLoop ⟨[0, 0, 0, 0], [0, 0, 0, 0]⟩ fuel
        (maskIP [0, 0, 0, 0] [0, 0, 0, 0]) [] = none := by
  refine ⟨by rfl, ?_⟩
  intro fuel
  have h := enumLoop_zero [0, 0, 0, 0] ((isIPv4_iff _).2 ⟨0, 0, 0, 0, rfl, by norm_num,
    by norm_num, by norm_num, by norm_num⟩) fuel 0 []
  exact h

/-! ## The text of an address determines the address -/

set_option maxRecDepth 100000 in
theorem ubtoa_no_dot (a : Nat) (h : a < 256) : '.' ∉ ubtoa a := by
  have : ∀ a < 256, '.' ∉ ubtoa a := by decide
  exact this a h

set_option maxRecDepth 100000 in
theorem dtoiLoop_ubtoa (a : Nat) (h : a < 256) : dtoiLoop (ubtoa a) 0 = some a := by
  have : ∀ a < 256, dtoiLoop (ubtoa a) 0 = some a := by decide
  exact this a h

theorem ubtoa_inj (a b : Nat) (ha : a < 256) (hb : b < 256) (h : ubtoa a = ubtoa b) : a = b := by
  have h1 := dtoiLoop_ubtoa a ha
  rw [h, dtoiLoop_ubtoa b hb] at h1
  exact (Option.some.inj h1).symm

theorem split_dot (l1 l2 r1 r2 : List Char) (h1 : '.' ∉ l1) (h2 : '.' ∉ l2)
    (h : l1 ++ '.' :: r1 = l2 ++ '.' :: r2) : l1 = l2 ∧ r1 = r2 := by
  induction l1 generalizing l2 with
  | nil =>
    cases l2 with
    | nil => simpa using h
    | cons c l2 =>
      simp only [List.nil_append, List.cons_append, List.cons.injEq] at h
      exact absurd (h.1 ▸ List.mem_cons_self _ _) h2
  | cons c l1 ih =>
    cases l2 with
    | nil =>
      simp only [List.nil_append, List.cons_append, List.cons.injEq] at h
      exact absurd (h.1 ▸ List.mem_cons_self _ _) h1
    | cons e l2 =>
      simp only [List.cons_append, List.cons.injEq] at h
      obtain ⟨rfl, h⟩ := h
      obtain ⟨rfl, rfl⟩ := ih l2 (fun hm => h1 (List.mem_cons_of_mem _ hm))
        (fun hm => h2 (List.mem_cons_of_mem _ hm)) h
      exact ⟨rfl, rfl⟩

theorem ipString_inj (x y : List Nat) (hx : IsIPv4 x) (hy : IsIPv4 y)
    (h : ipString x = ipString y) : x = y := by
  obtain ⟨a, b, c, d, rfl, ha, hb, hc, hd⟩ := (isIPv4_iff x).1 hx
  obtain ⟨e, f, g, k, rfl, he, hf, hg, hk⟩ := (isIPv4_iff y).1 hy
  have h := congrArg String.data h
  simp only [ipString, ipChars] at h
  obtain ⟨h1, h⟩ := split_dot _ _ _ _ (ubtoa_no_dot a ha) (ubtoa_no_dot e he) h
  obtain ⟨h2, h⟩ := split_dot _ _ _ _ (ubtoa_no_dot b hb) (ubtoa_no_dot f hf) h
  obtain ⟨h3, h4⟩ := split_dot _ _ _ _ (ubtoa_no_dot c hc) (ubtoa_no_dot g hg) h
  rw [ubtoa_inj a e ha he h1, ubtoa_inj b f hb hf h2, ubtoa_inj c g hc hg h3,
    ubtoa_inj d k hd hk h4]

theorem ipString_ofVal_inj (v w : Nat) (hv : v < 4294967296) (hw : w < 4294967296)
    (h : ipString (ofVal v) = ipString (ofVal w)) : v = w := by
  have := congrArg ipVal (ipString_inj _ _ (isIPv4_ofVal v) (isIPv4_ofVal w) h)
  rwa [ipVal_ofVal, ipVal_ofVal, Nat.mod_eq_of_lt hv, Nat.mod_eq_of_lt hw] at this

/-- The key space for every prefix length `p` from 1 to 30: with more than
`2^(32-p)` loop tests `cidrIPs` returns `2^(32-p) - 2` addresses, and an
address is in the list exactly when it lies strictly between the network
address and the broadcast address `network + 2^(32-p) - 1`. -/
theorem cidrIPs_keyspace (s : String) (addr : List Nat) (p fuel : Nat) (hp1 : 1 ≤ p)
    (hp : p ≤ 30)
    (h : parseCIDR s = ParseResult.ok4 addr ⟨maskIP addr (cidrMask p 32), cidrMask p 32⟩)
    (hf : 2 ^ (32 - p) < fuel) :
    ∃ l, cidrIPs fuel s = CidrResult.ok l ∧ l.length = 2 ^ (32 - p) - 2 ∧ l ≠ [] ∧
      ∀ v, v < 4294967296 →
        (ipString (ofVal v) ∈ l ↔
          ipVal addr / 2 ^ (32 - p) * 2 ^ (32 - p) < v ∧
            v < ipVal addr / 2 ^ (32 - p) * 2 ^ (32 - p) + 2 ^ (32 - p) - 1) := by
  obtain ⟨hw, -⟩ := parseCIDR_ok4 s addr _ h
  have hA := ipVal_lt addr hw
  have htop := net_top p (by omega) _ hA
  have hS : 4 ≤ 2 ^ (32 - p) := by
    calc 4 = 2 ^ 2 := by norm_num
      _ ≤ 2 ^ (32 - p) := Nat.pow_le_pow_right (by norm_num) (by omega)
  refine ⟨_, cidrIPs_usable s addr p fuel hp1 (by omega) h hf, by simp, ?_, ?_⟩
  · intro hnil
    have := congrArg List.length hnil
    simp only [List.length_map, List.length_range, List.length_nil] at this
    omega
  · intro v hv
    simp only [List.mem_map, List.mem_range]
    constructor
    · rintro ⟨i, hi, heq⟩
      have := ipString_ofVal_inj _ _ (by omega) hv heq
      omega
    · rintro ⟨h1, h2⟩
      refine ⟨v - (ipVal addr / 2 ^ (32 - p) * 2 ^ (32 - p)) - 1, by omega, ?_⟩
      congr 2
      omega

/-! ## Properties of the generator, the workers and the driver -/

theorem makechan_some (chanLimit elemSize : Nat) (size : Int) (cap : Nat)
    (h : makechan chanLimit elemSize size = some cap) :
    0 ≤ size ∧ cap = size.toNat ∧ elemSize * size.toNat < 18446744073709551616 ∧
      elemSize * size.toNat ≤ chanLimit := by
  unfold makechan at h
  split_ifs at h with h1
  push_neg at h1
  cases h
  exact ⟨h1.1, rfl, h1.2.1, h1.2.2⟩

theorem makechan_accepts (chanLimit elemSize N : Nat)
    (h64 : elemSize * N < 18446744073709551616) (hlim : elemSize * N ≤ chanLimit) :
    makechan chanLimit elemSize (N : Int) = some N := by
  unfold makechan
  rw [if_neg]
  · simp
  · simp only [Int.toNat_ofNat]
    omega

/-- C4 as stated fails: for the record count `2^62`, which the flag `--records`
accepts, `make(chan Data, args.Records)` panics (the buffer of `24 * 2^62`
bytes overflows `uintptr`) and the generator enqueues nothing. -/
theorem generate_panics_on_huge_count :
    generate 281474976710560 4611686018427387904 ["10.0.0.1", "10.0.0.2"] (fun i => i + 1)
      (fun _ => 7) = GenResult.panic := by
  decide

/-- C4, amended: for every record count `N` that `make(chan Data, N)` accepts
(`24 * N` is below `2^64` and not above the bound of the run time), every
non-empty key space and every sequence of random draws, the generator ends
without a panic and without a blocked send, the channel then holds exactly
`N` requests, every sampled index is within the bounds of the key space, and
the request of iteration `i` carries the key found at its sampled index, an
element of the key space. -/
theorem generate_exact (chanLimit N : Nat) (ips : List String) (rnd : Nat → Nat)
    (now : Nat → Int) (h : ips ≠ []) (h64 : 24 * N < 18446744073709551616)
    (hlim : 24 * N ≤ chanLimit) :
    ∃ jobs, generate chanLimit (N : Int) ips rnd now = GenResult.done jobs ∧ jobs.length = N ∧
      (∀ i, i < N → rnd i % ips.length < ips.length ∧
        (jobs[i]?).map Data.Ip = ips[rnd i % ips.length]?) ∧
      ∀ d ∈ jobs, d.Ip ∈ ips := by
  have hlen : 0 < ips.length := List.length_pos.2 h
  have hidx : ∀ i, rnd i % ips.length < ips.length := fun i => Nat.mod_lt _ hlen
  refine ⟨(List.range' 0 N).map (fun t => ⟨now t, (ips[rnd t % ips.length]?).getD ""⟩),
    ?_, ?_, ?_, ?_⟩
  · simp only [generate, makechan_accepts chanLimit 24 N h64 hlim,
      makechan_accepts chanLimit 8 N (by omega) (by omega), Int.toNat_ofNat]
    rw [genLoop_done ips rnd now N h N 0 [] (by simp), List.nil_append]
  · simp
  · intro i hi
    refine ⟨hidx i, ?_⟩
    simp [List.getElem?_map, List.getElem?_range' _ _ hi, List.getElem?_eq_getElem (hidx i)]
  · intro d hd
    simp only [List.mem_map, List.mem_range'_1] at hd
    obtain ⟨t, -, rfl⟩ := hd
    simp only [List.getElem?_eq_getElem (hidx t), Option.getD_some]
    exact List.getElem_mem _

theorem generate_exact_witness :
    (["10.0.0.1", "10.0.0.2"] : List String) ≠ [] ∧ 24 * 3 < 18446744073709551616 ∧
      24 * 3 ≤ 281474976710560 ∧
      ∃ jobs, generate 281474976710560 ((3 : Nat) : Int) ["10.0.0.1", "10.0.0.2"]
          (fun i => i + 1) (fun _ => 7)
          = GenResult.done jobs ∧ jobs.length = 3 ∧
        (∀ i, i < 3 → (fun i => i + 1) i % (["10.0.0.1", "10.0.0.2"] : List String).length
            < (["10.0.0.1", "10.0.0.2"] : List String).length ∧
          (jobs[i]?).map Data.Ip
            = (["10.0.0.1", "10.0.0.2"] : List String)[(fun i => i + 1) i
                % (["10.0.0.1", "10.0.0.2"] : List String).length]?) ∧
        ∀ d ∈ jobs, d.Ip ∈ (["10.0.0.1", "10.0.0.2"] : List String) :=
  ⟨by decide, by decide, by decide,
    generate_exact 281474976710560 3 ["10.0.0.1", "10.0.0.2"] (fun i => i + 1) (fun _ => 7)
      (by decide) (by decide) (by decide)⟩

/-- C5: start the driver with `N` requests in the job queue and any number of
threads.  In every state reached by any sequence of steps in which no
`log.Fatalf` has happened, `N` is the number of requests still queued plus
the number in flight in a worker plus the number of samples emitted; so the
samples emitted never exceed `N`, every request taken from the queue is
either in flight or has given exactly one sample, and in the state in which
the driver has finished it has received exactly `N` samples. -/
theorem accounting (N : Nat) (threads : Int) (table family : String) (jobs : List Data)
    (acts : List Action) (s : Sys) (hjobs : jobs.length = N)
    (hrun : run (initSys N threads table family jobs) acts = some s)
    (hna : s.aborted = false) :
    N = s.jobs.length + inFlight s + emitted s ∧ emitted s ≤ N ∧
      N - s.jobs.length = inFlight s + emitted s ∧
      (s.driver = Driver.finished → s.received = N) := by
  obtain ⟨-, hcount, hd⟩ :=
    run_inv N acts _ s hrun (initSys_inv N threads table family jobs hjobs) hna
  refine ⟨hcount, by omega, by omega, ?_⟩
  intro hfin
  rw [hfin] at hd
  exact hd

theorem accounting_witness :
    ([⟨7, "10.0.0.2"⟩, ⟨7, "10.0.0.1"⟩] : List Data).length = 2 ∧
      run (initSys ((2 : Nat) : Int) 1 "metrics" "stats" [⟨7, "10.0.0.2"⟩, ⟨7, "10.0.0.1"⟩])
          [Action.driver, Action.driver, Action.connect 0 true, Action.recv 0, Action.take 0,
            Action.write 0 (some 5), Action.send 0, Action.driver, Action.recv 0, Action.take 0,
            Action.write 0 (some 6), Action.send 0, Action.driver, Action.driver]
        = some ⟨2, 1, "metrics", "stats", [], [], [Worker.waiting], Driver.finished, 2,
            [⟨"metrics", "10.0.0.2", "stats", "ips", 1⟩,
              ⟨"metrics", "10.0.0.1", "stats", "ips", 1⟩], false⟩ ∧
      (2 = 0 + 0 + (0 + 2) ∧ 0 + 2 ≤ 2 ∧ 2 - 0 = 0 + (0 + 2) ∧
        ((Driver.finished = Driver.finished) → 2 = 2)) :=
  ⟨by decide, by decide,
    accounting 2 1 "metrics" "stats" [⟨7, "10.0.0.2"⟩, ⟨7, "10.0.0.1"⟩]
      [Action.driver, Action.driver, Action.connect 0 true, Action.recv 0, Action.take 0,
        Action.write 0 (some 5), Action.send 0, Action.driver, Action.recv 0, Action.take 0,
        Action.write 0 (some 6), Action.send 0, Action.driver, Action.driver]
      ⟨2, 1, "metrics", "stats", [], [], [Worker.waiting], Driver.finished, 2,
        [⟨"metrics", "10.0.0.2", "stats", "ips", 1⟩,
          ⟨"metrics", "10.0.0.1", "stats", "ips", 1⟩], false⟩
      (by decide) (by decide) (by decide)⟩

/-- C6: in every state, when the write of a worker returns an error the step
ends in the abort state; the step adds no sample to the result channel,
gives none to the driver, puts no request back into the queue and leaves the
worker where it was, and from the abort state no step of a worker or of the
driver is possible, whatever is still queued. -/
theorem write_error_aborts (s t : Sys) (i : Nat)
    (h : step s (Action.write i none) = some t) :
    t.aborted = true ∧ t.res = s.res ∧ t.received = s.received ∧ t.jobs = s.jobs ∧
      t.workers = s.workers ∧ ∀ a, step t a = none := by
  unfold step at h
  split_ifs at h
  simp only [writeWorker] at h
  split at h
  · rename_i heq; simp at heq
  · rename_i heq; simp at heq
  · rename_i heq; simp at heq
  · rename_i j x r hw heq
    have hr : r = none := by
      simp only [Action.write.injEq] at heq
      exact heq.2.symm
    subst hr
    simp only [Option.some.injEq] at h
    subst h
    refine ⟨rfl, rfl, rfl, rfl, rfl, ?_⟩
    intro a
    simp [step]
  · rename_i heq; simp at heq
  · cases h

theorem write_error_aborts_witness :
    step midRun (Action.write 1 none)
        = some { midRun with
            writes := [⟨"metrics", "10.0.0.2", "stats", "ips", 1⟩], aborted := true } ∧
      ({ midRun with writes := [⟨"metrics", "10.0.0.2", "stats", "ips", 1⟩],
                     aborted := true } : Sys).aborted = true ∧
      ({ midRun with writes := [⟨"metrics", "10.0.0.2", "stats", "ips", 1⟩],
                     aborted := true } : Sys).jobs = [⟨7, "10.0.0.1"⟩, ⟨7, "10.0.0.2"⟩] ∧
      ∀ a, step { midRun with writes := [⟨"metrics", "10.0.0.2", "stats", "ips", 1⟩],
                              aborted := true } a = none :=
  have h := write_error_aborts midRun
    { midRun with writes := [⟨"metrics", "10.0.0.2", "stats", "ips", 1⟩], aborted := true } 1
    (by decide)
  ⟨by decide, h.1, h.2.2.2.1, h.2.2.2.2.2⟩

/-! ## Properties of `main` -/

/-- C7 as stated fails: with `--threads 0 --records 1`, and with `--rps -1`
when `ratelimit.New` returns on a negative rate, `main` reaches the workload
(a job is in the channel, or a worker is launched) although the thread count
is below 1 or the rate is not positive. -/
theorem main_checks_neither_threads_nor_rate :
    (startsWorkload (mainStart 5 cfgNoWorkers quietEnv) = true ∧ ¬ 1 ≤ cfgNoWorkers.Threads) ∧
      (startsWorkload (mainStart 5 cfgNegativeRate quietEnv) = true ∧
        ¬ 0 < cfgNegativeRate.RPS) := by
  decide

/-- C7, amended: `main` starts the workload (a job in the channel or a worker
launched) only if `ratelimit.New` has returned, the project is non-empty,
`createTable` has returned no error, the record count is not negative (and
`make` has accepted it) and `cidrIPs` has returned a key list; and once
`ratelimit.New` has returned, an empty project or an error of `createTable`
ends `main` in `log.Fatal` before the workload, and so does an error of
`cidrIPs` when `make(chan Data, args.Records)` has accepted the record count
(the channels are made before `cidrIPs` is called).  The thread count and the
rate are not checked. -/
theorem main_guard (fuel : Nat) (args : Args) (env : Env) :
    (startsWorkload (mainStart fuel args env) = true →
      env.newLimiter args.RPS = true ∧ args.Project ≠ "" ∧
        (createTable env.admin args.Project args.Instance args.Database args.Table
          args.Verbose).1 = false ∧
        0 ≤ args.Records ∧ (∃ ips, cidrIPs fuel args.Cidr = CidrResult.ok ips) ∧
        makechan env.chanLimit 24 args.Records = some args.Records.toNat) ∧
      (env.newLimiter args.RPS = true →
        (args.Project = "" ∨
          (createTable env.admin args.Project args.Instance args.Database args.Table
            args.Verbose).1 = true ∨
          (makechan env.chanLimit 24 args.Records ≠ none ∧
            cidrIPs fuel args.Cidr = CidrResult.error)) →
        mainStart fuel args env = MainResult.fatal) := by
  constructor
  · intro h
    unfold mainStart at h
    simp only at h
    split_ifs at h with h1 h2 h3
    · simp [startsWorkload] at h
    · simp [startsWorkload] at h
    · simp [startsWorkload] at h
    · split at h
      · simp [startsWorkload] at h
      · rename_i cap hcap
        obtain ⟨hr, hc, -, -⟩ := makechan_some _ _ _ _ hcap
        split at h
        · simp [startsWorkload] at h
        · split at h
          · simp [startsWorkload] at h
          · simp [startsWorkload] at h
          · simp [startsWorkload] at h
          · rename_i ips hips
            exact ⟨by simpa using h1, h2, by simpa using h3, hr, ⟨ips, hips⟩, hc ▸ hcap⟩
  · intro hl hbad
    unfold mainStart
    simp only [hl, Bool.not_true, Bool.false_eq_true, if_false]
    by_cases h2 : args.Project = ""
    · simp [h2]
    · rw [if_neg h2]
      by_cases h3 : (createTable env.admin args.Project args.Instance args.Database args.Table
          args.Verbose).1 = true
      · simp [h3]
      · rw [if_neg h3]
        rcases hbad with h | h | ⟨h4, h5⟩
        · exact absurd h h2
        · exact absurd h h3
        · obtain ⟨cap, hcap⟩ := Option.ne_none_iff_exists'.1 h4
          obtain ⟨hr, hc, h64, hlim⟩ := makechan_some _ _ _ _ hcap
          have h8 : makechan env.chanLimit 8 args.Records = some args.Records.toNat := by
            unfold makechan
            rw [if_neg]
            push_neg
            exact ⟨hr, by omega, by omega⟩
          simp only [hcap, h8, h5]

theorem main_guard_witness :
    (startsWorkload (mainStart 5 cfgFoo quietEnv) = true ∧
      (quietEnv.newLimiter cfgFoo.RPS = true ∧ cfgFoo.Project ≠ "" ∧
        (createTable quietEnv.admin cfgFoo.Project cfgFoo.Instance cfgFoo.Database cfgFoo.Table
          cfgFoo.Verbose).1 = false ∧
        0 ≤ cfgFoo.Records ∧ (∃ ips, cidrIPs 5 cfgFoo.Cidr = CidrResult.ok ips) ∧
        makechan quietEnv.chanLimit 24 cfgFoo.Records = some cfgFoo.Records.toNat)) ∧
      (quietEnv.newLimiter 1000 = true ∧
        mainStart 5 ⟨"", "timeseries", "metrics", "stats", 1000, 1, 1, false, "10.0.0.0/30"⟩
          quietEnv = MainResult.fatal) ∧
      ((makechan quietEnv.chanLimit 24 1 ≠ none ∧ cidrIPs 5 "2001:db8:::/64" = CidrResult.error) ∧
        mainStart 5 ⟨"p", "timeseries", "metrics", "stats", 1000, 1, 1, false, "2001:db8:::/64"⟩
          quietEnv = MainResult.fatal) :=
  ⟨⟨by decide, (main_guard 5 cfgFoo quietEnv).1 (by decide)⟩,
    ⟨by decide,
      (main_guard 5 ⟨"", "timeseries", "metrics", "stats", 1000, 1, 1, false, "10.0.0.0/30"⟩
        quietEnv).2 (by decide) (Or.inl rfl)⟩,
    ⟨by decide,
      (main_guard 5 ⟨"p", "timeseries", "metrics", "stats", 1000, 1, 1, false, "2001:db8:::/64"⟩
        quietEnv).2 (by decide) (Or.inr (Or.inr (by decide)))⟩⟩

/-- The record count `2^62` with a malformed range: `make` panics before
`cidrIPs` is called, so `main` ends in the panic and not in `log.Fatal`. -/
theorem main_panics_before_cidrIPs :
    mainStart 5 ⟨"p", "timeseries", "metrics", "stats", 1000, 4611686018427387904, 1, false,
      "xyz"⟩ quietEnv = MainResult.panic := by
  decide

/-- The table a worker writes to is the table argument of `createTable`, for
every configuration; the column family of the write is the constant `stats`. -/
theorem workerWrite_target (args : Args) (j : Data) :
    (workerWrite args.Database args.Table j).table = args.Database ∧
      (workerWrite args.Database args.Table j).family = "stats" ∧
      (workerWrite args.Database args.Table j).row = j.Ip :=
  ⟨rfl, rfl, rfl⟩

/-- What `createTable` provisions for an absent table when no admin call
fails: the table `args.Database` with the column family `args.Table`. -/
theorem provisioned_absent (args : Args) (env : AdminEnv) (tables : List String)
    (hc : env.clientErr = false) (ht : env.tables = some tables)
    (habs : sliceContains tables args.Database = false) (h1 : env.createTableErr = false)
    (h2 : env.createFamilyErr = false) (h3 : env.setPolicyErr = false) :
    provisioned args env = [AdminCall.createTable args.Database,
      AdminCall.createColumnFamily args.Database args.Table,
      AdminCall.setGCPolicy args.Database args.Table 24] := by
  simp [provisioned, createTable, hc, ht, habs, h1, h2, h3]

/-- C10, at the flags `--table foo`: `createTable` provisions the column
family `foo` on the table `metrics`, and the write that the worker then
issues goes to the column family `stats` of that table, a family that was
not provisioned. -/
theorem family_written_is_not_family_provisioned :
    provisioned cfgFoo emptyStore
        = [AdminCall.createTable "metrics", AdminCall.createColumnFamily "metrics" "foo",
            AdminCall.setGCPolicy "metrics" "foo" 24] ∧
      (match mainStart 5 cfgFoo quietEnv with
        | MainResult.started s =>
          (run s [Action.driver, Action.connect 0 true, Action.recv 0, Action.take 0,
            Action.write 0 (some 5)]).map Sys.writes
        | _ => none)
        = some [⟨"metrics", "10.0.0.2", "stats", "ips", 1⟩] := by
  decide

end Btwrite
